import Mathlib

/-!
# Verification of the gold-trading signal bot (`src/main.py`)

Shallow embedding of the signal-generation core of `main.py`:

* prices (`High`, `Low`, `Close`) are exact rationals (the data model requires
  finite candle fields);
* derived indicator fields (`EMA50`, `EMA200`, `ATR`, `ADX`) are `Option ℚ`,
  with `none` standing for pandas `NaN` during warm-up;
* computed values that can become infinite or NaN (the position builder's
  divisions and products) live in `EF`, an IEEE-754-style extension of `ℚ`
  with `nan`, `+∞` and `-∞` and float comparison semantics (`NaN` compares
  false with everything), mirroring numpy float64 scalar arithmetic;
* functions that can raise (`.iloc[-2]` on a short series, `.iloc[-1]` on an
  empty one) return `Option`, with `none` standing for the raised exception;
* the orchestration loop `run` is a step function `cycle` over per-tick
  inputs, threading the `last_signal` deduplication state.
-/

/-- IEEE-754-style extended rationals: `nan`, the two infinities, and finite
values `val q`.  Models numpy float64 scalars with exact (unrounded) finite
arithmetic. -/
inductive EF where
  | nan : EF
  | pinf : EF
  | ninf : EF
  | val : ℚ → EF
  deriving DecidableEq

namespace EF

/-- Negation (IEEE semantics). -/
def neg : EF → EF
  | .nan => .nan
  | .pinf => .ninf
  | .ninf => .pinf
  | .val q => .val (-q)

/-- Addition (IEEE semantics: NaN propagates, `+∞ + -∞ = NaN`). -/
def add : EF → EF → EF
  | .nan, _ => .nan
  | _, .nan => .nan
  | .pinf, .ninf => .nan
  | .ninf, .pinf => .nan
  | .pinf, _ => .pinf
  | _, .pinf => .pinf
  | .ninf, _ => .ninf
  | _, .ninf => .ninf
  | .val a, .val b => .val (a + b)

/-- Subtraction, as `a + (-b)` (agrees with IEEE subtraction). -/
def sub (a b : EF) : EF := a.add b.neg

/-- Multiplication (IEEE semantics: NaN propagates, `∞ * 0 = NaN`). -/
def mul : EF → EF → EF
  | .nan, _ => .nan
  | _, .nan => .nan
  | .pinf, .pinf => .pinf
  | .pinf, .ninf => .ninf
  | .ninf, .pinf => .ninf
  | .ninf, .ninf => .pinf
  | .pinf, .val q => if 0 < q then .pinf else if q < 0 then .ninf else .nan
  | .val q, .pinf => if 0 < q then .pinf else if q < 0 then .ninf else .nan
  | .ninf, .val q => if 0 < q then .ninf else if q < 0 then .pinf else .nan
  | .val q, .ninf => if 0 < q then .ninf else if q < 0 then .pinf else .nan
  | .val a, .val b => .val (a * b)

/-- Division (IEEE semantics: NaN propagates, `∞/∞ = NaN`, finite/0 is a
signed infinity — or NaN for `0/0` — exactly as numpy float64 produces with
only a RuntimeWarning). -/
def div : EF → EF → EF
  | .nan, _ => .nan
  | _, .nan => .nan
  | .pinf, .pinf => .nan
  | .pinf, .ninf => .nan
  | .ninf, .pinf => .nan
  | .ninf, .ninf => .nan
  | .pinf, .val b => if 0 ≤ b then .pinf else .ninf
  | .ninf, .val b => if 0 ≤ b then .ninf else .pinf
  | .val _, .pinf => .val 0
  | .val _, .ninf => .val 0
  | .val a, .val b =>
      if b = 0 then (if 0 < a then .pinf else if a < 0 then .ninf else .nan)
      else .val (a / b)

/-- Absolute value. -/
def abs : EF → EF
  | .nan => .nan
  | .pinf => .pinf
  | .ninf => .pinf
  | .val q => .val |q|

/-- Strict `<` with IEEE comparison semantics: any comparison involving NaN
is false (this is why pandas `NaN > x` guards silently fail closed). -/
def lt : EF → EF → Bool
  | .nan, _ => false
  | _, .nan => false
  | .pinf, _ => false
  | _, .ninf => false
  | .ninf, _ => true
  | _, .pinf => true
  | .val a, .val b => decide (a < b)

instance : Neg EF := ⟨EF.neg⟩
instance : Add EF := ⟨EF.add⟩
instance : Sub EF := ⟨EF.sub⟩
instance : Mul EF := ⟨EF.mul⟩
instance : Div EF := ⟨EF.div⟩

end EF

/-- Lift a possibly-NaN stored indicator value into `EF`. -/
def ofO : Option ℚ → EF
  | none => .nan
  | some q => .val q

/-- Maximum of a list of rationals (`none` on the empty list); the core of
pandas `rolling(w).max()`. -/
def listMax : List ℚ → Option ℚ
  | [] => none
  | x :: xs =>
    match listMax xs with
    | none => some x
    | some m => some (max x m)

/-- Minimum of a list of rationals (`none` on the empty list). -/
def listMin : List ℚ → Option ℚ
  | [] => none
  | x :: xs =>
    match listMin xs with
    | none => some x
    | some m => some (min x m)

/-- Value at index `i` of pandas `Series(xs).rolling(w).max()`: `NaN` (here
`none`) until the window is full, otherwise the max over the `w` entries
ending at `i`. -/
def rollMaxAt (xs : List ℚ) (w i : Nat) : Option ℚ :=
  if i + 1 < w then none else listMax ((xs.drop (i + 1 - w)).take w)

/-- Value at index `i` of pandas `Series(xs).rolling(w).min()`. -/
def rollMinAt (xs : List ℚ) (w i : Nat) : Option ℚ :=
  if i + 1 < w then none else listMin ((xs.drop (i + 1 - w)).take w)

/-- One row of the indicator dataframe: a candle's prices (finite, per the
data model) extended with the derived fields added by `indicators`, each of
which is `NaN` (`none`) during warm-up. -/
structure Row where
  High : ℚ
  Low : ℚ
  Close : ℚ
  EMA50 : Option ℚ
  EMA200 : Option ℚ
  ATR : Option ℚ
  ADX : Option ℚ
  deriving DecidableEq

/-- `RR_RATIO = 2` from the config block (renamed `RR` here). -/
def RR : ℚ := 2

/-- `ACCOUNT_BALANCE = 10000` from the config block. -/
def ACCOUNT_BALANCE : ℚ := 10000

/-- `RISK_PER_TRADE = 0.01` from the config block. -/
def RISK_PER_TRADE : ℚ := 1 / 100

/-- `liquidity_sweep(df)`: rolling 20-candle extremes evaluated at the
second-to-last row, compared against the last candle.  `.iloc[-2]` raises
`IndexError` when the series has fewer than two rows — modelled by `none`;
pandas NaN warm-up values make both comparisons false. -/
def liquidity_sweep (df : List Row) : Option Bool :=
  if df.length < 2 then none
  else
    match df.getLast? with
    | none => none
    | some last =>
      let high_roll := ofO (rollMaxAt (df.map Row.High) 20 (df.length - 2))
      let low_roll := ofO (rollMinAt (df.map Row.Low) 20 (df.length - 2))
      let sweep_high := EF.lt high_roll (.val last.High) && EF.lt (.val last.Close) high_roll
      let sweep_low := EF.lt (.val last.Low) low_roll && EF.lt low_roll (.val last.Close)
      some (sweep_high || sweep_low)

/-- The `last["ADX"] > 25` test of `confidence` (false on NaN). -/
def adxCond (last : Row) : Bool := EF.lt (.val 25) (ofO last.ADX)

/-- The `(last["ATR"] / last["Close"]) * 100 > 0.7` test of `confidence`
(false on NaN; numpy division semantics if `Close = 0`). -/
def volCond (last : Row) : Bool :=
  EF.lt (.val (7 / 10)) ((ofO last.ATR / .val last.Close) * .val 100)

/-- The additive score of `confidence`: base 50, `+20` for ADX strength,
`+15` for volatility, `+15` for a detected sweep, capped by `min(score, 100)`. -/
def confScore (last : Row) (sweep : Bool) : Nat :=
  min (50 + (if adxCond last then 20 else 0) + (if volCond last then 15 else 0)
        + (if sweep then 15 else 0)) 100

/-- `confidence(df)`: score of the last row.  `none` models the exceptions
raised on a series too short for `.iloc[-1]` / `liquidity_sweep`'s
`.iloc[-2]`. -/
def confidence (df : List Row) : Option Nat :=
  match df.getLast?, liquidity_sweep df with
  | some last, some sweep => some (confScore last sweep)
  | _, _ => none

/-- Direction returned by `trend` (strings `"BUY"`, `"SELL"`, `"NONE"` in the
source). -/
inductive TDir where
  | BUY : TDir
  | SELL : TDir
  | NONE : TDir
  deriving DecidableEq

/-- The comparison core of `trend()`: given the most recent higher-timeframe
row `h` and lower-timeframe row `m`, `bullish` iff EMA50 > EMA200 on both,
`bearish` iff EMA50 < EMA200 on both; NaN comparisons are false. -/
def trend (h m : Row) : TDir :=
  let bullish := EF.lt (ofO h.EMA200) (ofO h.EMA50) && EF.lt (ofO m.EMA200) (ofO m.EMA50)
  let bearish := EF.lt (ofO h.EMA50) (ofO h.EMA200) && EF.lt (ofO m.EMA50) (ofO m.EMA200)
  if bullish then .BUY else if bearish then .SELL else .NONE

/-- Direction actually passed to `build_trade` (the `run` loop filters out
`"NONE"`; any non-`"BUY"` string takes the SELL branch). -/
inductive Dir where
  | BUY : Dir
  | SELL : Dir
  deriving DecidableEq

/-- The record returned by `build_trade`: `entry` is always the last Close
(finite); the derived fields keep full float semantics. -/
structure Trade where
  entry : ℚ
  stop : EF
  target : EF
  size : EF
  profit : EF
  conf : Nat
  deriving DecidableEq

/-- `build_trade(direction, df)`: stop/target one ATR (resp. `RR` ATRs) from
entry, fixed-fraction risk sizing `size = risk_amount / abs(entry - stop)`.
The division is numpy float64: a zero denominator yields `+∞`, a NaN one
yields NaN — no exception is raised.  `none` models the exceptions raised on
a series too short for `confidence`. -/
def build_trade (direction : Dir) (df : List Row) : Option Trade :=
  match df.getLast?, confidence df with
  | some last, some conf =>
    let entry := last.Close
    let atr := ofO last.ATR
    let stop := if direction = .BUY then .val entry - atr else .val entry + atr
    let target :=
      if direction = .BUY then .val entry + atr * .val RR else .val entry - atr * .val RR
    let risk_amount : ℚ := ACCOUNT_BALANCE * RISK_PER_TRADE
    let size := .val risk_amount / (EF.val entry - stop).abs
    let profit := (target - .val entry).abs * size
    some ⟨entry, stop, target, size, profit, conf⟩
  | _, _ => none

/-- A calendar event as consumed by `high_impact_news`: its `impact` string
and the result of `pd.Timestamp(event["date"])`, in seconds
(`.error` models a raised parse exception). -/
structure Event where
  impact : String
  date : Except Unit ℚ

/-- The `for event in data` loop body of `high_impact_news`: skip non-High
events; a date parse exception propagates to the bare `except`, returning
`False`; a High event within 45 minutes (2700 seconds) of `now` returns
`True`. -/
def newsScan (now : ℚ) : List Event → Bool
  | [] => false
  | e :: rest =>
    if e.impact ≠ "High" then newsScan now rest
    else
      match e.date with
      | .error _ => false
      | .ok t => if |t - now| / 60 < 45 then true else newsScan now rest

/-- `high_impact_news()`: the HTTP-fetch-and-parse result is an input
(`.error` models any exception in `requests.get(...).json()`); the bare
`except` turns every failure into `False`. -/
def high_impact_news (fetched : Except Unit (List Event)) (now : ℚ) : Bool :=
  match fetched with
  | .error _ => false
  | .ok events => newsScan now events

/-- `round(entry, 1)` of the signal id (ties rounded to the nearest tenth;
Python rounds ties-to-even on binary floats, which never changes whether two
equal entries get equal keys). -/
def round1 (q : ℚ) : ℚ := (round (q * 10) : ℤ) / 10

/-- An emitted signal: its deduplication key
`f"{direction}-{round(entry,1)}"` (modelled as the pair `Dir × ℚ`) and the
trade record behind the Discord message. -/
structure Sig where
  key : Dir × ℚ
  trade : Trade
  deriving DecidableEq

/-- The per-iteration external inputs of the `run` loop: the kill-zone test,
the news oracle's fetch result and current time, and the two indicator series
(`h1`, `m15`) supplied by `fetch` + `indicators`. -/
structure Tick where
  killzone : Bool
  news : Except Unit (List Event)
  now : ℚ
  hdf : List Row
  mdf : List Row

/-- The emit-or-skip tail of a `run` iteration once `trend` returned a
tradable direction: build the trade, form `signal_id`, and send iff
`signal_id != last_signal and conf >= 75`, updating `last_signal` only on
send.  `build_trade = none` (an exception) is caught by the loop's bare
`except`, leaving the state unchanged. -/
def emitStep (last : Option (Dir × ℚ)) (d : Dir) (df : List Row) :
    Option Sig × Option (Dir × ℚ) :=
  match build_trade d df with
  | none => (none, last)
  | some tr =>
    let key : Dir × ℚ := (d, round1 tr.entry)
    if some key ≠ last ∧ 75 ≤ tr.conf then (some ⟨key, tr⟩, some key) else (none, last)

/-- One iteration of the `while True` loop of `run` (heartbeat and sleeps are
external timing concerns): skip outside the kill zone, skip on imminent
high-impact news, classify the trend from the two most recent rows, and run
`emitStep` when a direction exists.  Empty fetched series (whose `.iloc[-1]`
would raise) take the exception path: nothing emitted, state unchanged. -/
def cycle (last : Option (Dir × ℚ)) (t : Tick) : Option Sig × Option (Dir × ℚ) :=
  if t.killzone = false then (none, last)
  else if high_impact_news t.news t.now then (none, last)
  else
    match t.hdf.getLast?, t.mdf.getLast? with
    | some hlast, some mlast =>
      match trend hlast mlast with
      | TDir.NONE => (none, last)
      | TDir.BUY => emitStep last Dir.BUY t.mdf
      | TDir.SELL => emitStep last Dir.SELL t.mdf
    | _, _ => (none, last)

/-- The `run` loop over a stream of per-tick inputs, starting from
deduplication state `last` (`none` = the initial `last_signal = None`),
collecting the emitted signals in order. -/
def runEmits (last : Option (Dir × ℚ)) : List Tick → List Sig
  | [] => []
  | t :: ts =>
    match cycle last t with
    | (some s, last') => s :: runEmits last' ts
    | (none, last') => runEmits last' ts

/-- Outcome of one simulated backtest trade. -/
inductive Outcome where
  | win : Outcome
  | loss : Outcome
  | discard : Outcome
  deriving DecidableEq

/-- Modelled from the spec: the Backtest Engine (spec §4.5) is absent from
`src/main.py`; this is its trade-resolution rule, from the spec's words.
Over the 10-candle scan window `df.iloc[i:i+10]`: if the window's minimum Low
is ≤ stop, the trade is a loss — the stop check comes first and takes
precedence; only otherwise, if the maximum High is ≥ target, it is a win;
otherwise it is discarded. -/
def resolveTrade (stop target : ℚ) (window : List Row) : Outcome :=
  if window.any (fun c => c.Low ≤ stop) then .loss
  else if window.any (fun c => target ≤ c.High) then .win
  else .discard

/-- Modelled from the spec: the Backtest Engine's simulated entry at index
`i` — skip unless `EMA50[i] > EMA200[i]` (with defined values and a defined
ATR, the walk starting at the warm-up floor); otherwise a BUY at `Close[i]`
with `stop = entry - ATR[i]`, `target = entry + ATR[i] * RR`. -/
def btEntryAt (df : List Row) (i : Nat) : Option (ℚ × ℚ) :=
  match df.get? i with
  | none => none
  | some r =>
    match r.EMA50, r.EMA200, r.ATR with
    | some e50, some e200, some atr =>
      if e50 ≤ e200 then none
      else some (r.Close - atr, r.Close + atr * RR)
    | _, _, _ => none

/-- Modelled from the spec: the outcome the Backtest Engine records for the
simulated entry at index `i`, by scanning the window `df.iloc[i:i+10]`. -/
def btOutcomeAt (df : List Row) (i : Nat) : Option Outcome :=
  (btEntryAt df i).map (fun st => resolveTrade st.1 st.2 ((df.drop i).take 10))

/-- Modelled from the spec: the Backtest Engine's aggregate walk from the
warm-up floor 200 to `length - horizon`, counting wins and losses. -/
def backtest (df : List Row) : Nat × Nat :=
  let idxs := (List.range df.length).filter (fun i => 200 ≤ i && i ≤ df.length - 10)
  ((idxs.filter (fun i => btOutcomeAt df i = some .win)).length,
   (idxs.filter (fun i => btOutcomeAt df i = some .loss)).length)

/-- A bare candle row with all indicator fields still NaN. -/
def qRow (h l c : ℚ) : Row :=
  { High := h, Low := l, Close := c, EMA50 := none, EMA200 := none,
    ATR := none, ADX := none }

/-- Last row of a feed with a degenerate (zero) ATR: two identical flat
candles whose true range is 0. -/
def zeroAtrRow : Row :=
  { High := 2000, Low := 2000, Close := 2000, EMA50 := none, EMA200 := none,
    ATR := some 0, ADX := none }

/-- A two-row series ending in a zero-ATR row. -/
def zeroAtrDf : List Row := [zeroAtrRow, zeroAtrRow]

/-- A row with a healthy positive ATR, used to exercise the position sizing
identities. -/
def atr5Row : Row :=
  { High := 2005, Low := 1995, Close := 2000, EMA50 := none, EMA200 := none,
    ATR := some 5, ADX := none }

/-- A two-row series ending in the positive-ATR row. -/
def atr5Df : List Row := [atr5Row, atr5Row]

/-- The trade `build_trade` returns on `atr5Df` for a BUY. -/
def atr5Trade : Trade :=
  { entry := 2000, stop := .val 1995, target := .val 2010, size := .val 20,
    profit := .val 200, conf := 50 }

/-- A row with ATR 4 on a Close of 100 (volatile enough for the `+15`
volatility bonus). -/
def atr4Row : Row :=
  { High := 104, Low := 96, Close := 100, EMA50 := none, EMA200 := none,
    ATR := some 4, ADX := none }

/-- A two-row series ending in the ATR-4 row. -/
def atr4Df : List Row := [atr4Row, atr4Row]

/-- A row meeting all three confidence bonuses' row-level conditions
(ADX 30 > 25, ATR/Close = 4% > 0.7%). -/
def strongRow : Row :=
  { High := 104, Low := 96, Close := 100, EMA50 := none, EMA200 := none,
    ATR := some 4, ADX := some 30 }

/-- A 21-candle series whose last candle pierces the prior 20-candle high
(High 12 > 10) and closes back inside (Close 9 < 10): a sweep-high. -/
def sweepDf : List Row := List.replicate 20 (qRow 10 5 7) ++ [qRow 12 6 9]

/-- A single simulated backtest entry row: EMA50 2 > EMA200 1, ATR 1,
Close 10 — so stop 9 and target 12 — whose own candle spans both
(Low 0 ≤ 9 and High 100 ≥ 12). -/
def btRow : Row :=
  { High := 100, Low := 0, Close := 10, EMA50 := some 2, EMA200 := some 1,
    ATR := some 1, ADX := none }

/-- One-row backtest series built from `btRow`. -/
def btDf : List Row := [btRow]

/-- A degenerate last 15-minute row: zero ATR, but a strong ADX (30) and a
bullish EMA pair, closing a sweep-high candle. -/
def zeroAtrSweepRow : Row :=
  { High := 12, Low := 6, Close := 9, EMA50 := some 2, EMA200 := some 1,
    ATR := some 0, ADX := some 30 }

/-- A 21-row 15-minute series ending in the zero-ATR row; the liquidity
sweep fires and confidence reaches 85 ≥ 75. -/
def zeroAtrM15 : List Row := List.replicate 20 (qRow 10 5 7) ++ [zeroAtrSweepRow]

/-- A bullish most-recent 1-hour row. -/
def hBuyRow : Row :=
  { High := 12, Low := 6, Close := 9, EMA50 := some 2, EMA200 := some 1,
    ATR := some 1, ADX := some 30 }

/-- A full orchestration tick — in the kill zone, empty news calendar —
whose market data ends in the zero-ATR row. -/
def zeroAtrTick : Tick :=
  { killzone := true, news := .ok [], now := 0, hdf := [hBuyRow], mdf := zeroAtrM15 }

/-- The trade `build_trade` produces on `zeroAtrM15`: an infinite size and a
NaN profit. -/
def zeroAtrInfTrade : Trade :=
  { entry := 9, stop := .val 9, target := .val 9, size := .pinf,
    profit := .nan, conf := 85 }

attribute [local semireducible] Rat.add Rat.sub Rat.mul Rat.inv Rat.ofScientific

namespace EF

@[simp] theorem val_add (a b : ℚ) : (val a) + (val b) = val (a + b) := rfl

@[simp] theorem val_sub (a b : ℚ) : (val a) - (val b) = val (a - b) := by
  show (val a).add (val b).neg = val (a - b)
  simp only [add, neg]
  rw [← sub_eq_add_neg]

@[simp] theorem val_mul (a b : ℚ) : (val a) * (val b) = val (a * b) := rfl

theorem val_div_val (a b : ℚ) :
    (val a) / (val b) =
      if b = 0 then (if 0 < a then pinf else if a < 0 then ninf else nan)
      else val (a / b) := rfl

@[simp] theorem val_div_of_ne (a b : ℚ) (hb : b ≠ 0) :
    (val a) / (val b) = val (a / b) := by
  simp [val_div_val, hb]

@[simp] theorem abs_val (q : ℚ) : (val q).abs = val |q| := rfl

@[simp] theorem lt_val_val (a b : ℚ) : lt (val a) (val b) = decide (a < b) := rfl

@[simp] theorem lt_nan_left (x : EF) : lt nan x = false := by
  cases x <;> rfl

@[simp] theorem lt_nan_right (x : EF) : lt x nan = false := by
  cases x <;> rfl

end EF

@[simp] theorem ofO_none : ofO none = .nan := rfl

@[simp] theorem ofO_some (q : ℚ) : ofO (some q) = .val q := rfl

/-- A float comparison of two possibly-NaN values is true exactly when both
are defined and the underlying rationals compare. -/
theorem lt_ofO_iff (x y : Option ℚ) :
    EF.lt (ofO x) (ofO y) = true ↔ ∃ a b, x = some a ∧ y = some b ∧ a < b := by
  cases x <;> cases y <;> simp

/-- `50 ≤ confScore` and `confScore ≤ 100`, by the shape of the additive
scale. -/
theorem confScore_bounds (last : Row) (sweep : Bool) :
    50 ≤ confScore last sweep ∧ confScore last sweep ≤ 100 := by
  unfold confScore
  split_ifs <;> omega

/-- C5: for every indicator row series on which the Confidence Scorer
produces an output, that output is the base-50 additive score of the last
row capped by `min(·, 100)`, and it lies in the interval `[50, 100]`. -/
theorem confidence_range (df : List Row) (s : Nat) (h : confidence df = some s) :
    (∃ last sweep, df.getLast? = some last ∧ liquidity_sweep df = some sweep ∧
      s = min (50 + (if adxCond last then 20 else 0)
                + (if volCond last then 15 else 0)
                + (if sweep then 15 else 0)) 100) ∧
    50 ≤ s ∧ s ≤ 100 := by
  unfold confidence at h
  cases hL : df.getLast? with
  | none => rw [hL] at h; cases h
  | some last =>
    cases hS : liquidity_sweep df with
    | none => rw [hL, hS] at h; cases h
    | some sweep =>
      rw [hL, hS] at h
      injection h with h
      subst h
      exact ⟨⟨last, sweep, rfl, rfl, rfl⟩,
        (confScore_bounds last sweep).1, (confScore_bounds last sweep).2⟩

/-- Witness for C5 at a concrete two-row series (score 65: only the
volatility bonus fires). -/
theorem confidence_range_witness :
    confidence atr4Df = some 65 ∧ 50 ≤ 65 ∧ 65 ≤ 100 :=
  ⟨by decide, (confidence_range atr4Df 65 (by decide)).2⟩

/-- C6: the additive confidence score is monotone in the three qualifying
conditions — strengthening any subset of ADX, volatility, sweep never
decreases the score. -/
theorem confScore_mono (r r' : Row) (sw sw' : Bool)
    (hA : adxCond r = true → adxCond r' = true)
    (hV : volCond r = true → volCond r' = true)
    (hS : sw = true → sw' = true) :
    confScore r sw ≤ confScore r' sw' := by
  unfold confScore
  cases h1 : adxCond r <;> cases h2 : adxCond r' <;>
    cases h3 : volCond r <;> cases h4 : volCond r' <;>
    cases sw <;> cases sw' <;> simp_all

/-- Witness for C6: a row with no qualifying condition scores no more than
one with the ADX and volatility conditions plus a detected sweep. -/
theorem confScore_mono_witness :
    confScore (qRow 104 96 100) false ≤ confScore strongRow true :=
  confScore_mono (qRow 104 96 100) strongRow false true
    (by decide) (by decide) (by decide)

/-- C3: the Trend Classifier returns BUY iff EMA50 > EMA200 holds (with
defined values) on both rows, SELL iff EMA50 < EMA200 on both, and any
undefined (NaN) EMA forces NONE. -/
theorem trend_spec (h m : Row) :
    (trend h m = .BUY ↔ ∃ a b c d, h.EMA50 = some a ∧ h.EMA200 = some b ∧
        m.EMA50 = some c ∧ m.EMA200 = some d ∧ b < a ∧ d < c) ∧
    (trend h m = .SELL ↔ ∃ a b c d, h.EMA50 = some a ∧ h.EMA200 = some b ∧
        m.EMA50 = some c ∧ m.EMA200 = some d ∧ a < b ∧ c < d) ∧
    ((h.EMA50 = none ∨ h.EMA200 = none ∨ m.EMA50 = none ∨ m.EMA200 = none) →
      trend h m = .NONE) := by
  refine ⟨⟨?_, ?_⟩, ⟨?_, ?_⟩, ?_⟩
  · intro hEq
    simp only [trend] at hEq
    split_ifs at hEq with hbull hbear
    · rw [Bool.and_eq_true] at hbull
      obtain ⟨hlt1, hlt2⟩ := hbull
      obtain ⟨b, a, h200, h50, hba⟩ := (lt_ofO_iff _ _).mp hlt1
      obtain ⟨d, c, m200, m50, hdc⟩ := (lt_ofO_iff _ _).mp hlt2
      exact ⟨a, b, c, d, h50, h200, m50, m200, hba, hdc⟩
  · rintro ⟨a, b, c, d, h50, h200, m50, m200, hba, hdc⟩
    simp only [trend]
    have hbull : (EF.lt (ofO h.EMA200) (ofO h.EMA50)
        && EF.lt (ofO m.EMA200) (ofO m.EMA50)) = true := by
      rw [h50, h200, m50, m200]
      simp [hba, hdc]
    rw [if_pos hbull]
  · intro hEq
    simp only [trend] at hEq
    split_ifs at hEq with hbull hbear
    · rw [Bool.and_eq_true] at hbear
      obtain ⟨hlt1, hlt2⟩ := hbear
      obtain ⟨a, b, h50, h200, hab⟩ := (lt_ofO_iff _ _).mp hlt1
      obtain ⟨c, d, m50, m200, hcd⟩ := (lt_ofO_iff _ _).mp hlt2
      exact ⟨a, b, c, d, h50, h200, m50, m200, hab, hcd⟩
  · rintro ⟨a, b, c, d, h50, h200, m50, m200, hab, hcd⟩
    simp only [trend]
    have hbear : (EF.lt (ofO h.EMA50) (ofO h.EMA200)
        && EF.lt (ofO m.EMA50) (ofO m.EMA200)) = true := by
      rw [h50, h200, m50, m200]
      simp [hab, hcd]
    have hnbull : ¬((EF.lt (ofO h.EMA200) (ofO h.EMA50)
        && EF.lt (ofO m.EMA200) (ofO m.EMA50)) = true) := by
      rw [h50, h200, m50, m200]
      simp only [ofO_some, EF.lt_val_val, Bool.and_eq_true, decide_eq_true_eq]
      rintro ⟨h1, h2⟩
      exact absurd hab (lt_asymm h1)
    rw [if_neg hnbull, if_pos hbear]
  · intro hnone
    simp only [trend]
    rcases hnone with h1 | h1 | h1 | h1 <;> rw [h1] <;> simp

/-- Witness for C3's NaN clause at concrete rows: all EMAs undefined yields
NONE (the BUY/SELL iffs are applied with their right-hand sides refuted). -/
theorem trend_spec_witness :
    trend (qRow 1 1 1) (qRow 1 1 1) = .NONE :=
  (trend_spec (qRow 1 1 1) (qRow 1 1 1)).2.2 (Or.inl rfl)

/-- C10: a news-oracle failure (any exception in the HTTP fetch / JSON
parse, modelled as `.error`) makes `high_impact_news` return `false`, and
the orchestration cycle behaves exactly as it would with an empty calendar:
signals are generated and emitted as if no high-impact event were
imminent. -/
theorem news_failure_fails_open (last : Option (Dir × ℚ)) (kz : Bool) (now : ℚ)
    (hdf mdf : List Row) (u : Unit) :
    high_impact_news (.error u) now = false ∧
    cycle last ⟨kz, .error u, now, hdf, mdf⟩ = cycle last ⟨kz, .ok [], now, hdf, mdf⟩ := by
  refine ⟨rfl, ?_⟩
  simp only [cycle, high_impact_news, newsScan]

set_option maxRecDepth 4000 in
/-- C1 evidence: on a feed whose last row has ATR 0 (two identical flat
candles), `build_trade` does not fail — numpy float64 division by zero
silently yields an infinite size (and `0 * ∞ = NaN` profit) — and on a full
orchestration tick ending in a zero-ATR row with confidence 85 the loop
emits the infinite-size signal rather than suppressing it. -/
theorem build_trade_zero_atr :
    build_trade .BUY zeroAtrDf =
      some { entry := 2000, stop := .val 2000, target := .val 2000,
             size := .pinf, profit := .nan, conf := 50 } ∧
    cycle none zeroAtrTick =
      (some ⟨(Dir.BUY, 9), zeroAtrInfTrade⟩, some (Dir.BUY, 9)) := by
  constructor
  · decide
  · decide

/-- C8: for either direction, when the last row's ATR is a positive real,
the returned trade satisfies `size * |entry - stop| = riskAmount` exactly
(`riskAmount = ACCOUNT_BALANCE * RISK_PER_TRADE`) and
`|target - entry| / |entry - stop| = RR`. -/
theorem build_trade_risk (d : Dir) (df : List Row) (last : Row) (a : ℚ) (t : Trade)
    (hL : df.getLast? = some last) (hA : last.ATR = some a) (ha : 0 < a)
    (ht : build_trade d df = some t) :
    t.size * (EF.val t.entry - t.stop).abs = .val (ACCOUNT_BALANCE * RISK_PER_TRADE) ∧
    (t.target - .val t.entry).abs / (EF.val t.entry - t.stop).abs = .val RR := by
  have hRR : (0:ℚ) < RR := by norm_num [RR]
  have ha' : a ≠ 0 := ha.ne'
  cases hC : confidence df with
  | none => rw [build_trade, hL, hC] at ht; cases ht
  | some conf =>
    rw [build_trade, hL, hC] at ht
    dsimp only at ht
    rw [hA] at ht
    cases d with
    | BUY =>
      simp only [if_pos (rfl : Dir.BUY = Dir.BUY), if_true] at ht
      injection ht with ht
      subst ht
      simp only [ofO_some, EF.val_sub, EF.val_add, EF.val_mul, EF.abs_val]
      rw [show last.Close - (last.Close - a) = a by ring,
        show last.Close + a * RR - last.Close = a * RR by ring,
        abs_of_pos ha, abs_of_pos (mul_pos ha hRR),
        EF.val_div_of_ne _ _ ha']
      constructor
      · rw [EF.val_mul]
        congr 1
        field_simp
      · rw [EF.val_div_of_ne _ _ ha']
        congr 1
        field_simp
    | SELL =>
      simp only [if_neg (by decide : ¬(Dir.SELL = Dir.BUY)), if_false] at ht
      injection ht with ht
      subst ht
      simp only [ofO_some, EF.val_sub, EF.val_add, EF.val_mul, EF.abs_val]
      rw [show last.Close - (last.Close + a) = -a by ring,
        show last.Close - a * RR - last.Close = -(a * RR) by ring,
        abs_neg, abs_neg, abs_of_pos ha, abs_of_pos (mul_pos ha hRR),
        EF.val_div_of_ne _ _ ha']
      constructor
      · rw [EF.val_mul]
        congr 1
        field_simp
      · rw [EF.val_div_of_ne _ _ ha']
        congr 1
        field_simp

/-- Witness for C8 at a concrete series: ATR 5, Close 2000 → stop 1995,
target 2010, size 20, and both identities hold at the returned record. -/
theorem build_trade_risk_witness :
    build_trade .BUY atr5Df = some atr5Trade ∧
    atr5Trade.size * (EF.val atr5Trade.entry - atr5Trade.stop).abs
      = .val (ACCOUNT_BALANCE * RISK_PER_TRADE) ∧
    (atr5Trade.target - .val atr5Trade.entry).abs
        / (EF.val atr5Trade.entry - atr5Trade.stop).abs = .val RR :=
  ⟨by decide, build_trade_risk .BUY atr5Df atr5Row 5 atr5Trade
    (by decide) (by decide) (by decide) (by decide)⟩

/-- C9: for either direction, when the last row's ATR is a positive real,
the returned trade's size and potential profit are finite non-negative
rationals. -/
theorem build_trade_finite (d : Dir) (df : List Row) (last : Row) (a : ℚ) (t : Trade)
    (hL : df.getLast? = some last) (hA : last.ATR = some a) (ha : 0 < a)
    (ht : build_trade d df = some t) :
    (∃ q, t.size = .val q ∧ 0 ≤ q) ∧ (∃ q, t.profit = .val q ∧ 0 ≤ q) := by
  have hRR : (0:ℚ) < RR := by norm_num [RR]
  have ha' : a ≠ 0 := ha.ne'
  have hRA : (0:ℚ) ≤ ACCOUNT_BALANCE * RISK_PER_TRADE := by
    norm_num [ACCOUNT_BALANCE, RISK_PER_TRADE]
  cases hC : confidence df with
  | none => rw [build_trade, hL, hC] at ht; cases ht
  | some conf =>
    rw [build_trade, hL, hC] at ht
    dsimp only at ht
    rw [hA] at ht
    cases d with
    | BUY =>
      simp only [if_pos (rfl : Dir.BUY = Dir.BUY), if_true] at ht
      injection ht with ht
      subst ht
      simp only [ofO_some, EF.val_sub, EF.val_add, EF.val_mul, EF.abs_val]
      rw [show last.Close - (last.Close - a) = a by ring,
        show last.Close + a * RR - last.Close = a * RR by ring,
        abs_of_pos ha, abs_of_pos (mul_pos ha hRR),
        EF.val_div_of_ne _ _ ha', EF.val_mul]
      exact ⟨⟨_, rfl, div_nonneg hRA ha.le⟩,
        ⟨_, rfl, mul_nonneg (mul_pos ha hRR).le (div_nonneg hRA ha.le)⟩⟩
    | SELL =>
      simp only [if_neg (by decide : ¬(Dir.SELL = Dir.BUY)), if_false] at ht
      injection ht with ht
      subst ht
      simp only [ofO_some, EF.val_sub, EF.val_add, EF.val_mul, EF.abs_val]
      rw [show last.Close - (last.Close + a) = -a by ring,
        show last.Close - a * RR - last.Close = -(a * RR) by ring,
        abs_neg, abs_neg, abs_of_pos ha, abs_of_pos (mul_pos ha hRR),
        EF.val_div_of_ne _ _ ha', EF.val_mul]
      exact ⟨⟨_, rfl, div_nonneg hRA ha.le⟩,
        ⟨_, rfl, mul_nonneg (mul_pos ha hRR).le (div_nonneg hRA ha.le)⟩⟩

/-- Witness for C9 at a concrete series: ATR 4, Close 100 → size 25,
profit 200, both finite and non-negative. -/
theorem build_trade_finite_witness :
    (∃ q, (Trade.size ⟨100, .val 96, .val 108, .val 25, .val 200, 65⟩ = EF.val q ∧ 0 ≤ q)) ∧
    (∃ q, (Trade.profit ⟨100, .val 96, .val 108, .val 25, .val 200, 65⟩ = EF.val q ∧ 0 ≤ q)) :=
  build_trade_finite .BUY atr4Df atr4Row 4
    ⟨100, .val 96, .val 108, .val 25, .val 200, 65⟩
    (by decide) (by decide) (by decide) (by decide)

/-- `listMax` is defined on every nonempty list. -/
theorem listMax_of_ne_nil (l : List ℚ) (h : l ≠ []) : ∃ m, listMax l = some m := by
  cases l with
  | nil => exact absurd rfl h
  | cons x xs =>
    unfold listMax
    cases listMax xs <;> exact ⟨_, rfl⟩

/-- `listMin` is defined on every nonempty list. -/
theorem listMin_of_ne_nil (l : List ℚ) (h : l ≠ []) : ∃ m, listMin l = some m := by
  cases l with
  | nil => exact absurd rfl h
  | cons x xs =>
    unfold listMin
    cases listMin xs <;> exact ⟨_, rfl⟩

/-- C7 (amended): with at least 21 candles, `liquidity_sweep` returns the
sweep-high/sweep-low disjunction against the 20-candle rolling extremes
ending at the second-to-last candle; with 2 to 20 candles every rolling
value is still NaN and it returns `false`; with fewer than 2 candles
`.iloc[-2]` raises `IndexError` (modelled by `none`) instead of returning
`false`. -/
theorem liquidity_sweep_spec (df : List Row) :
    (21 ≤ df.length →
      ∃ last hq lq, df.getLast? = some last ∧
        listMax (((df.map Row.High).drop (df.length - 21)).take 20) = some hq ∧
        listMin (((df.map Row.Low).drop (df.length - 21)).take 20) = some lq ∧
        liquidity_sweep df =
          some ((decide (hq < last.High) && decide (last.Close < hq)) ||
                (decide (last.Low < lq) && decide (lq < last.Close)))) ∧
    (2 ≤ df.length → df.length < 21 → liquidity_sweep df = some false) ∧
    (df.length < 2 → liquidity_sweep df = none) := by
  refine ⟨?_, ?_, ?_⟩
  · intro h21
    have hne : df ≠ [] := by
      intro h
      rw [h] at h21
      simp at h21
    cases hlast : df.getLast? with
    | none =>
      have := List.getLast?_isSome.mpr hne
      rw [hlast] at this
      simp at this
    | some last =>
      obtain ⟨hq, hMax⟩ := listMax_of_ne_nil
          (((df.map Row.High).drop (df.length - 21)).take 20) (by
        apply List.ne_nil_of_length_pos
        rw [List.length_take, List.length_drop, List.length_map]
        omega)
      obtain ⟨lq, hMin⟩ := listMin_of_ne_nil
          (((df.map Row.Low).drop (df.length - 21)).take 20) (by
        apply List.ne_nil_of_length_pos
        rw [List.length_take, List.length_drop, List.length_map]
        omega)
      have e1 : rollMaxAt (df.map Row.High) 20 (df.length - 2)
          = listMax (((df.map Row.High).drop (df.length - 21)).take 20) := by
        unfold rollMaxAt
        rw [if_neg (by omega : ¬(df.length - 2 + 1 < 20)),
          (by omega : df.length - 2 + 1 - 20 = df.length - 21)]
      have e2 : rollMinAt (df.map Row.Low) 20 (df.length - 2)
          = listMin (((df.map Row.Low).drop (df.length - 21)).take 20) := by
        unfold rollMinAt
        rw [if_neg (by omega : ¬(df.length - 2 + 1 < 20)),
          (by omega : df.length - 2 + 1 - 20 = df.length - 21)]
      refine ⟨last, hq, lq, rfl, hMax, hMin, ?_⟩
      simp only [liquidity_sweep]
      rw [if_neg (by omega : ¬(df.length < 2)), hlast]
      rw [e1, hMax, e2, hMin]
      simp only [ofO_some, EF.lt_val_val]
  · intro h2 h21
    have hne : df ≠ [] := by
      intro h
      rw [h] at h2
      simp at h2
    cases hlast : df.getLast? with
    | none =>
      have := List.getLast?_isSome.mpr hne
      rw [hlast] at this
      simp at this
    | some last =>
      have e1 : rollMaxAt (df.map Row.High) 20 (df.length - 2) = none := by
        unfold rollMaxAt
        rw [if_pos (by omega : df.length - 2 + 1 < 20)]
      have e2 : rollMinAt (df.map Row.Low) 20 (df.length - 2) = none := by
        unfold rollMinAt
        rw [if_pos (by omega : df.length - 2 + 1 < 20)]
      simp only [liquidity_sweep]
      rw [if_neg (by omega : ¬(df.length < 2)), hlast]
      rw [e1, e2]
      simp
  · intro h2
    simp only [liquidity_sweep]
    rw [if_pos h2]

/-- Counterexample to C7 as stated: on a one-candle series the detector does
not return `false` — `.iloc[-2]` raises `IndexError` (`none` here). -/
theorem liquidity_sweep_short_raises : liquidity_sweep [qRow 1 1 1] ≠ some false := by
  decide

/-- Witness for C7 (amended), exercising all three regimes: the 21-candle
sweep-high series, a 2-candle series returning `false`, and a 1-candle
series raising. -/
theorem liquidity_sweep_spec_witness :
    (∃ last hq lq, sweepDf.getLast? = some last ∧
        listMax (((sweepDf.map Row.High).drop (sweepDf.length - 21)).take 20) = some hq ∧
        listMin (((sweepDf.map Row.Low).drop (sweepDf.length - 21)).take 20) = some lq ∧
        liquidity_sweep sweepDf =
          some ((decide (hq < last.High) && decide (last.Close < hq)) ||
                (decide (last.Low < lq) && decide (lq < last.Close)))) ∧
    liquidity_sweep [qRow 1 1 1, qRow 1 1 1] = some false ∧
    liquidity_sweep [qRow 1 1 1] = none :=
  ⟨(liquidity_sweep_spec sweepDf).1 (by decide),
   (liquidity_sweep_spec [qRow 1 1 1, qRow 1 1 1]).2.1 (by decide) (by decide),
   (liquidity_sweep_spec [qRow 1 1 1]).2.2 (by decide)⟩

/-- The skip branches of `cycle` emit nothing and leave the deduplication
state unchanged. -/
theorem noEmit_spec (last : Option (Dir × ℚ)) :
    (∀ l', ((none : Option Sig), last) = (none, l') → l' = last) ∧
    (∀ s l', ((none : Option Sig), last) = (some s, l') → l' = some s.key ∧ some s.key ≠ last) := by
  constructor
  · intro l' h
    simp only [Prod.mk.injEq] at h
    exact h.2.symm
  · intro s l' h
    simp only [Prod.mk.injEq] at h
    exact Option.noConfusion h.1

/-- `emitStep`: no emission leaves the state unchanged; an emission stores
the emitted key, which the send guard forces to differ from the previous
state. -/
theorem emitStep_spec (last : Option (Dir × ℚ)) (d : Dir) (df : List Row) :
    (∀ l', emitStep last d df = (none, l') → l' = last) ∧
    (∀ s l', emitStep last d df = (some s, l') → l' = some s.key ∧ some s.key ≠ last) := by
  rcases htr : build_trade d df with _ | tr
  · constructor
    · intro l' h
      unfold emitStep at h
      rw [htr] at h
      simp only [Prod.mk.injEq] at h
      exact h.2.symm
    · intro s l' h
      unfold emitStep at h
      rw [htr] at h
      simp only [Prod.mk.injEq] at h
      exact Option.noConfusion h.1
  · by_cases hc : some (d, round1 tr.entry) ≠ last ∧ 75 ≤ tr.conf
    · constructor
      · intro l' h
        unfold emitStep at h
        rw [htr] at h
        dsimp only at h
        rw [if_pos hc] at h
        simp only [Prod.mk.injEq] at h
        exact Option.noConfusion h.1
      · intro s l' h
        unfold emitStep at h
        rw [htr] at h
        dsimp only at h
        rw [if_pos hc] at h
        simp only [Prod.mk.injEq] at h
        obtain ⟨hs, hl⟩ := h
        injection hs with hs
        subst hs
        exact ⟨hl.symm, hc.1⟩
    · constructor
      · intro l' h
        unfold emitStep at h
        rw [htr] at h
        dsimp only at h
        rw [if_neg hc] at h
        simp only [Prod.mk.injEq] at h
        exact h.2.symm
      · intro s l' h
        unfold emitStep at h
        rw [htr] at h
        dsimp only at h
        rw [if_neg hc] at h
        simp only [Prod.mk.injEq] at h
        exact Option.noConfusion h.1

/-- `cycle`: no emission leaves the state unchanged; an emission stores the
emitted key and that key differs from the previous state. -/
theorem cycle_spec (last : Option (Dir × ℚ)) (t : Tick) :
    (∀ l', cycle last t = (none, l') → l' = last) ∧
    (∀ s l', cycle last t = (some s, l') → l' = some s.key ∧ some s.key ≠ last) := by
  unfold cycle
  split_ifs with h1 h2
  · exact noEmit_spec last
  · exact noEmit_spec last
  · rcases hh : t.hdf.getLast? with _ | hlast <;> rcases hm : t.mdf.getLast? with _ | mlast <;>
      simp only
    · exact noEmit_spec last
    · exact noEmit_spec last
    · exact noEmit_spec last
    · rcases htr : trend hlast mlast with _ | _ | _ <;> simp only
      · exact emitStep_spec last Dir.BUY t.mdf
      · exact emitStep_spec last Dir.SELL t.mdf
      · exact noEmit_spec last

/-- The emitted-signal stream: consecutive keys always differ, and the first
emitted key differs from the incoming deduplication state. -/
theorem runEmits_spec (ts : List Tick) : ∀ last,
    List.Chain' (fun a b : Sig => a.key ≠ b.key) (runEmits last ts) ∧
    (∀ s, (runEmits last ts).head? = some s → some s.key ≠ last) := by
  induction ts with
  | nil =>
    intro last
    simp [runEmits]
  | cons t ts ih =>
    intro last
    rcases hc : cycle last t with ⟨os, l'⟩
    cases os with
    | none =>
      have hl : l' = last := (cycle_spec last t).1 l' hc
      subst hl
      constructor
      · simp only [runEmits, hc]
        exact (ih l').1
      · intro s hs
        simp only [runEmits, hc] at hs
        exact (ih l').2 s hs
    | some s =>
      obtain ⟨hl, hkey⟩ := (cycle_spec last t).2 s l' hc
      subst hl
      constructor
      · simp only [runEmits, hc]
        rw [List.chain'_cons']
        constructor
        · intro y hy
          have hne := (ih (some s.key)).2 y hy
          intro hEq
          exact hne (by rw [hEq])
        · exact (ih (some s.key)).1
      · intro s' hs'
        simp only [runEmits, hc, List.head?_cons] at hs'
        injection hs' with hs'
        subst hs'
        exact hkey

/-- C4: over any input stream, starting from the initial `last_signal = None`
state, no two consecutively emitted signals share a deduplication key
(direction, entry rounded to one decimal). -/
theorem dedup_no_consecutive_repeat (ts : List Tick) :
    List.Chain' (fun a b : Sig => a.key ≠ b.key) (runEmits none ts) :=
  (runEmits_spec ts none).1

/-- C2: for any simulated backtest entry whose 10-candle scan window reaches
both the stop and the target, the recorded outcome is a loss — the stop
check comes first — and never a win. -/
theorem backtest_stop_precedence (df : List Row) (i : Nat) (stop target : ℚ)
    (hE : btEntryAt df i = some (stop, target))
    (hLow : ∃ c ∈ (df.drop i).take 10, c.Low ≤ stop)
    (hHigh : ∃ c ∈ (df.drop i).take 10, target ≤ c.High) :
    btOutcomeAt df i = some .loss ∧ btOutcomeAt df i ≠ some .win := by
  have hOut : btOutcomeAt df i
      = some (resolveTrade stop target ((df.drop i).take 10)) := by
    unfold btOutcomeAt
    rw [hE]
    rfl
  have hAny : (((df.drop i).take 10).any (fun c => decide (c.Low ≤ stop))) = true := by
    rw [List.any_eq_true]
    obtain ⟨c, hc, hle⟩ := hLow
    exact ⟨c, hc, by simpa using hle⟩
  rw [hOut]
  unfold resolveTrade
  rw [if_pos hAny]
  exact ⟨rfl, by simp⟩

/-- Witness for C2 at a one-row series: EMA50 2 > EMA200 1, ATR 1, Close 10
give stop 9 and target 12; the entry candle spans 0–100, touching both, and
the outcome is a loss. -/
theorem backtest_stop_precedence_witness :
    btEntryAt btDf 0 = some (9, 12) ∧ btOutcomeAt btDf 0 = some .loss :=
  ⟨by decide, (backtest_stop_precedence btDf 0 9 12 (by decide)
    (by decide) (by decide)).1⟩
